import Mathlib

/-!
Shallow embedding of the coroutine primitives of the asyncpp library
(headers under include/asyncpp) together with proofs about them.

Coroutine handles are modelled as natural numbers; a resumption of a
suspended coroutine is recorded by emitting its handle into a list of
resumption events, in the order the source code calls resume on them.
-/

namespace Asyncpp

/-! ## task (include/asyncpp/task.h)

`task_promise_base` stores the outcome of the wrapped body in
`std::variant<std::monostate, TVal, std::exception_ptr> m_value`.
`return_value` places the value, `unhandled_exception` places the
current exception.  `rethrow_if_exception` rethrows a stored
exception and otherwise returns the stored value (`std::get` on a
monostate variant would raise `bad_variant_access`, modelled as
`none`).  Awaiting a task installs the awaiter as continuation,
resumes the frame (which runs the body to completion) and extracts
the result in `await_resume` via `promise().get()`. -/

/-- Model of `std::variant<std::monostate, TVal, std::exception_ptr>`. -/
inductive TaskValue (T E : Type) where
  | monostate
  | value (v : T)
  | exception (e : E)

/-- Model of `task_promise::return_value`: stores the returned value. -/
def TaskValue.return_value (T E) (v : T) : TaskValue T E := .value v

/-- Model of `task_promise_base::unhandled_exception`: stores the current exception. -/
def TaskValue.unhandled_exception (T E) (e : E) : TaskValue T E := .exception e

/-- Running the frame to completion: a body that returns `v` goes through
`return_value`, a body that exits with an exception `e` goes through
`unhandled_exception`. -/
def TaskValue.runFrame (T E) (body : Except E T) : TaskValue T E :=
  match body with
  | .ok v => TaskValue.return_value T E v
  | .error e => TaskValue.unhandled_exception T E e

/-- Model of `task_promise_base::rethrow_if_exception`: rethrows a stored
exception, otherwise returns the stored value; `none` models the
`bad_variant_access` raised by `std::get` on an empty slot. -/
def TaskValue.rethrow_if_exception {T E} : TaskValue T E → Option (Except E T)
  | .monostate => none
  | .value v => some (.ok v)
  | .exception e => some (.error e)

/-- Model of one complete await of a valid task: the continuation is
installed, the frame is resumed and runs the body, final suspension
transfers to the continuation exactly once, and `await_resume`
extracts the result through `promise().get()`. -/
structure TaskAwaitResult (T E : Type) where
  continuationInstalled : Bool
  continuationResumedCount : Nat
  extracted : Option (Except E T)

/-- Model of `task::operator co_await` on a valid task whose body has
outcome `body`, awaited exactly once. -/
def awaitTask (T E) (body : Except E T) : TaskAwaitResult T E :=
  { continuationInstalled := true
    continuationResumedCount := 1
    extracted := TaskValue.rethrow_if_exception (TaskValue.runFrame T E body) }

/-! ## multi_consumer_event (include/asyncpp/event.h)

State word `m_state` is `nullptr` (unset), `this` (set) or a pointer
to the head of an intrusive singly linked awaiter list; every
`await_suspend` pushes the new awaiter at the head with a CAS.
`set()` exchanges the state for `this` and walks the grabbed list
from its head, resuming every awaiter in list order. -/

/-- Model of the `m_state` word of `multi_consumer_event`:
`nullptr`, `this`, or the head of the awaiter list (head = most
recently linked awaiter). -/
inductive EventState where
  | unset
  | isSet
  | waiting (l : List Nat)
deriving DecidableEq, Repr

/-- Model of `multi_consumer_event::is_set`. -/
def EventState.is_set : EventState → Bool
  | .isSet => true
  | _ => false

/-- Model of `multi_consumer_event::awaiter::await_suspend` for the
coroutine handle `h`: if the event became set, do not suspend;
otherwise push this awaiter at the head of the list with
`m_next := old head`.  Returns the new state and whether the
coroutine suspended. -/
def EventState.await_suspend (e : EventState) (h : Nat) : EventState × Bool :=
  match e with
  | .isSet => (.isSet, false)
  | .unset => (.waiting [h], true)
  | .waiting l => (.waiting (h :: l), true)

/-- Model of `multi_consumer_event::set`: exchange the state for set
and, walking the grabbed awaiter list from its head, resume every
awaiter in list order.  Returns the new state and the handles
resumed, in resumption order. -/
def EventState.set (e : EventState) : EventState × List Nat :=
  match e with
  | .isSet => (.isSet, [])
  | .unset => (.isSet, [])
  | .waiting l => (.isSet, l)

/-- Suspend the handles `hs` on the event one after the other, in the
order given. -/
def EventState.suspendAll (e : EventState) (hs : List Nat) : EventState :=
  hs.foldl (fun e h => (e.await_suspend h).1) e

/-! ## latch (include/asyncpp/latch.h)

A latch is an atomic `size_t m_count` plus a `multi_consumer_event
m_event`.  The constructor sets the event exactly when the initial
count is zero.  `decrement(n)` performs `m_count.fetch_sub(n)` and
calls `m_event.set()` only when the value returned by `fetch_sub`
(the old count) equals zero.  `is_ready` returns `m_event.is_set()`.
Counts stay in the defined range (decrements never sum past the
initial value), so plain natural subtraction models `fetch_sub`. -/

structure Latch where
  m_count : Nat
  m_event : EventState
deriving DecidableEq, Repr

/-- Model of the `latch(std::size_t initial)` constructor. -/
def Latch.init (initial : Nat) : Latch :=
  { m_count := initial, m_event := if initial = 0 then .isSet else .unset }

/-- Model of `latch::decrement(n)`: `fetch_sub` returns the old count;
the event is set only when that old count equals zero.  Returns the
new latch and the handles resumed by `m_event.set()`. -/
def Latch.decrement (l : Latch) (n : Nat) : Latch × List Nat :=
  if l.m_count = 0 then
    let se := l.m_event.set
    ({ m_count := l.m_count - n, m_event := se.1 }, se.2)
  else
    ({ m_count := l.m_count - n, m_event := l.m_event }, [])

/-- Model of `latch::is_ready`. -/
def Latch.is_ready (l : Latch) : Bool := l.m_event.is_set

/-! ## mutex (include/asyncpp/mutex.h)

The atomic word `m_state` is `state_unlocked` (1),
`state_locked_no_waiters` (0) or a pointer to the head of an intrusive
`lock_awaiter` list built by CAS pushes at the head.  A second,
non-atomic list `m_awaiters` holds the current batch, only touched by
the lock holder.  `lock_awaiter::await_suspend` either acquires an
unlocked mutex without suspending or CAS-pushes itself at the head of
the state list.  `unlock` pops the head of `m_awaiters` if non-empty;
otherwise it tries to CAS the word back to unlocked, and when that
fails (waiters arrived) it exchanges the word for
`state_locked_no_waiters`, reverses the grabbed list into `m_awaiters`
and pops its head; the popped awaiter is resumed. -/

/-- Model of the `m_state` word of `mutex`.  In `lockedWaiters l` the
head of `l` is the most recently pushed awaiter. -/
inductive MutexState where
  | unlocked
  | lockedNoWaiters
  | lockedWaiters (casList : List Nat)
deriving DecidableEq, Repr

structure Mutex where
  m_state : MutexState
  m_awaiters : List Nat
deriving DecidableEq, Repr

/-- Model of `mutex::lock_awaiter::await_suspend` for handle `h`:
acquire without suspending when unlocked, otherwise CAS-push this
awaiter at the head of the state list.  Returns the new mutex and
whether the coroutine suspended. -/
def Mutex.lock_await_suspend (m : Mutex) (h : Nat) : Mutex × Bool :=
  match m.m_state with
  | .unlocked => ({ m with m_state := .lockedNoWaiters }, false)
  | .lockedNoWaiters => ({ m with m_state := .lockedWaiters [h] }, true)
  | .lockedWaiters l => ({ m with m_state := .lockedWaiters (h :: l) }, true)

/-- Model of `mutex::unlock`: pop the head of `m_awaiters`; when that
list is empty, either release the mutex (no waiters in the state word)
or grab the CAS list, reverse it into the batch and pop its head.  The
popped awaiter has `handle.resume()` called on it.  Returns the new
mutex and the resumed handle, if any.  (Unlocking an unlocked mutex is
asserted against in the source; the model leaves it unlocked, and the
`lockedWaiters []` shape never arises: `await_suspend` pushes at least
one node and the source asserts the grabbed word is a pointer.) -/
def Mutex.unlock (m : Mutex) : Mutex × Option Nat :=
  match m.m_awaiters with
  | w :: rest => ({ m with m_awaiters := rest }, some w)
  | [] =>
    match m.m_state with
    | .lockedNoWaiters => ({ m with m_state := .unlocked }, none)
    | .unlocked => (m, none)
    | .lockedWaiters l =>
      match l.reverse with
      | [] => ({ m_state := .lockedNoWaiters, m_awaiters := [] }, none)
      | w :: rest => ({ m_state := .lockedNoWaiters, m_awaiters := rest }, some w)

/-- Well-formedness from the source asserts: the state word never holds
a pointer to an empty awaiter list. -/
def Mutex.wf (m : Mutex) : Bool :=
  match m.m_state with
  | .lockedWaiters l => !l.isEmpty
  | _ => true

/-- All waiters pending on the mutex, in FIFO order of suspension: the
current batch first, then the CAS list reversed into insertion order. -/
def Mutex.pending (m : Mutex) : List Nat :=
  m.m_awaiters ++ (match m.m_state with
    | .lockedWaiters l => l.reverse
    | _ => [])

/-- Suspend the handles `hs` on the mutex one after the other. -/
def Mutex.suspendAll (m : Mutex) (hs : List Nat) : Mutex :=
  hs.foldl (fun m h => (m.lock_await_suspend h).1) m

/-- Perform `n` unlock calls, collecting resumed handles in order. -/
def Mutex.drain : Nat → Mutex → List Nat × Mutex
  | 0, m => ([], m)
  | n + 1, m =>
    let u := m.unlock
    let d := Mutex.drain n u.1
    (u.2.toList ++ d.1, d.2)

/-! ## channel (include/asyncpp/channel.h)

A channel is a rendezvous: `m_closed`, a list of suspended readers
`m_reader_list` and a list of suspended writers `m_writer_list`, both
appended at the tail (the awaiter walks to the last node).  A read
awaiter is ready iff the channel is closed (resuming with its initial
`m_result`, the empty optional); otherwise `await_suspend` unhooks the
first waiting writer, takes its value, sets the writer result to true
and resumes it inline, or appends itself to the reader list.  The
write awaiter mirrors this with a `bool` result that starts false.
`close()` sets `m_closed` exactly once and resumes every waiting
reader with an empty optional and every waiting writer with false. -/

structure ChanReadW (T : Type) where
  id : Nat
  m_result : Option T := none

structure ChanWriteW (T : Type) where
  id : Nat
  m_value : T
  m_result : Bool := false

structure Channel (T : Type) where
  m_closed : Bool := false
  m_reader_list : List (ChanReadW T) := []
  m_writer_list : List (ChanWriteW T) := []

/-- Outcome of awaiting `channel::read()`: either the await completes
without suspending, yielding `value` from `await_resume` and possibly
resuming an unhooked writer (its id paired with the result its own
`await_resume` then returns), or the reader suspends. -/
inductive ReadOutcome (T : Type) where
  | immediate (value : Option T) (resumedWriter : Option (Nat × Bool))
  | suspended

/-- Outcome of awaiting `channel::write(v)`: either the await completes
without suspending, yielding `result` and possibly resuming an
unhooked reader (its id paired with the optional its own
`await_resume` then returns), or the writer suspends. -/
inductive WriteOutcome (T : Type) where
  | immediate (result : Bool) (resumedReader : Option (Nat × Option T))
  | suspended

/-- Model of awaiting `channel::read()`: `await_ready` returns
`m_closed` (resuming with the initial empty `m_result`); otherwise
`await_suspend` either unhooks the first writer or appends this
reader at the tail of the reader list. -/
def Channel.readAwait {T} (c : Channel T) (id : Nat) : Channel T × ReadOutcome T :=
  if c.m_closed then (c, .immediate none none)
  else
    match c.m_writer_list with
    | w :: rest =>
        ({ c with m_writer_list := rest }, .immediate (some w.m_value) (some (w.id, true)))
    | [] => ({ c with m_reader_list := c.m_reader_list ++ [{ id := id }] }, .suspended)

/-- Model of awaiting `channel::write(v)`: `await_ready` returns
`m_closed` (resuming with the initial false `m_result`), and
`await_suspend` re-checks `m_closed` before either unhooking the
first reader or appending this writer at the tail of the writer
list. -/
def Channel.writeAwait {T} (c : Channel T) (id : Nat) (v : T) : Channel T × WriteOutcome T :=
  if c.m_closed then (c, .immediate false none)
  else
    match c.m_reader_list with
    | r :: rest =>
        ({ c with m_reader_list := rest }, .immediate true (some (r.id, some v)))
    | [] => ({ c with m_writer_list := c.m_writer_list ++ [{ id := id, m_value := v }] },
             .suspended)

/-- Model of `channel::try_read`.  Returns the new channel, the value
read and the resumed writer, if any. -/
def Channel.try_read {T} (c : Channel T) : Channel T × Option T × Option (Nat × Bool) :=
  if c.m_closed then (c, none, none)
  else
    match c.m_writer_list with
    | w :: rest => ({ c with m_writer_list := rest }, some w.m_value, some (w.id, true))
    | [] => (c, none, none)

/-- Model of `channel::try_write`.  Returns the new channel, whether
the value was delivered and the resumed reader, if any. -/
def Channel.try_write {T} (c : Channel T) (v : T) :
    Channel T × Bool × Option (Nat × Option T) :=
  if c.m_closed then (c, false, none)
  else
    match c.m_reader_list with
    | r :: rest => ({ c with m_reader_list := rest }, true, some (r.id, some v))
    | [] => (c, false, none)

/-- Model of `channel::close`: the first close sets `m_closed`, drains
the reader list resuming each reader with an empty optional and then
drains the writer list resuming each writer with false.  Returns the
new channel and the two resumption lists in resumption order. -/
def Channel.close {T} (c : Channel T) :
    Channel T × List (Nat × Option T) × List (Nat × Bool) :=
  if c.m_closed then (c, [], [])
  else
    ({ m_closed := true, m_reader_list := [], m_writer_list := [] },
     c.m_reader_list.map (fun r => (r.id, (none : Option T))),
     c.m_writer_list.map (fun w => (w.id, false)))

/-- The operations of the channel interface touching its state. -/
inductive ChanOp (T : Type) where
  | close
  | tryRead
  | tryWrite (v : T)
  | readAwait (id : Nat)
  | writeAwait (id : Nat) (v : T)

/-- State transition of one channel operation. -/
def Channel.step {T} (c : Channel T) : ChanOp T → Channel T
  | .close => c.close.1
  | .tryRead => c.try_read.1
  | .tryWrite v => (c.try_write v).1
  | .readAwait id => (c.readAwait id).1
  | .writeAwait id v => (c.writeAwait id v).1

/-! ## queue (include/asyncpp/queue.h)

A bounded buffered FIFO: `std::queue m_queue` (front at the head of
the list), capacity `m_max_size`, plus intrusive FIFO lists of
suspended pop awaiters (`m_pop_list`) and push awaiters
(`m_push_list`), both appended at the tail.  A pop awaiter resumes
with `m_result`, an optional initialised empty; a push awaiter
resumes with `m_result`, a bool initialised true, set to false only
by `clear()` and move assignment. -/

structure QPopW (T : Type) where
  id : Nat
  m_result : Option T := none

structure QPushW (T : Type) where
  id : Nat
  m_value : T
  m_result : Bool := true

structure Queue (T : Type) where
  m_queue : List T := []
  m_max_size : Nat
  m_pop_list : List (QPopW T) := []
  m_push_list : List (QPushW T) := []

/-- Model of the queue constructor with capacity `K`. -/
def Queue.init (T : Type) (K : Nat) : Queue T := { m_max_size := K }

/-- Outcome of awaiting `queue::push(v)`: either the push completes
without suspending, its `await_resume` yielding `result` (the awaiter
field `m_result`, still its initial true) and possibly having handed
the value straight to a resumed popper `(id, value)`, or the pusher
suspends. -/
inductive PushOutcome (T : Type) where
  | completed (result : Bool) (resumedPop : Option (Nat × T))
  | suspended
deriving DecidableEq

/-- Outcome of awaiting `queue::pop()`: either the pop completes
without suspending, yielding `value` and possibly resuming the first
suspended pusher `(id, result-of-its-own-await)`, or the popper
suspends. -/
inductive PopOutcome (T : Type) where
  | completed (value : T) (resumedPush : Option (Nat × Bool))
  | suspended

/-- Model of awaiting `queue::push(v)` (`push_awaiter::await_ready`
plus `await_suspend`): if a pop awaiter is waiting, unhook the first
one and resume it with the value; else if the buffer has room, buffer
the value; otherwise append this awaiter at the tail of the push
list and suspend. -/
def Queue.pushAwait {T} (q : Queue T) (id : Nat) (v : T) : Queue T × PushOutcome T :=
  match q.m_pop_list with
  | p :: rest => ({ q with m_pop_list := rest }, .completed true (some (p.id, v)))
  | [] =>
    if q.m_queue.length < q.m_max_size then
      ({ q with m_queue := q.m_queue ++ [v] }, .completed true none)
    else
      ({ q with m_push_list := q.m_push_list ++ [{ id := id, m_value := v }] }, .suspended)

/-- Model of awaiting `queue::pop()` (`pop_awaiter::await_ready` plus
`await_suspend`): if the buffer is empty, append this awaiter at the
tail of the pop list and suspend; otherwise take the front value and,
if a push awaiter is waiting, move its value into the buffer and
resume it with its stored `m_result`. -/
def Queue.popAwait {T} (q : Queue T) (id : Nat) : Queue T × PopOutcome T :=
  match q.m_queue with
  | [] => ({ q with m_pop_list := q.m_pop_list ++ [{ id := id }] }, .suspended)
  | v :: qrest =>
    match q.m_push_list with
    | [] => ({ q with m_queue := qrest }, .completed v none)
    | pw :: pwrest =>
        ({ q with m_queue := qrest ++ [pw.m_value], m_push_list := pwrest },
         .completed v (some (pw.id, pw.m_result)))

/-- Model of `queue::try_pop`.  Returns the new queue, the popped
value and the resumed pusher with its await result, if any. -/
def Queue.try_pop {T} (q : Queue T) : Queue T × Option T × Option (Nat × Bool) :=
  match q.m_queue with
  | [] => (q, none, none)
  | v :: qrest =>
    match q.m_push_list with
    | [] => ({ q with m_queue := qrest }, some v, none)
    | pw :: pwrest =>
        ({ q with m_queue := qrest ++ [pw.m_value], m_push_list := pwrest },
         some v, some (pw.id, pw.m_result))

/-- Model of `queue::clear`: empties the buffer, fails every suspended
push awaiter by setting its `m_result` to false and resuming it; pop
awaiters are untouched.  Returns the new queue and the resumed
pushers paired with the value their `await_resume` then yields. -/
def Queue.clear {T} (q : Queue T) : Queue T × List (Nat × Bool) :=
  ({ q with m_queue := [], m_push_list := [] },
   q.m_push_list.map (fun w => (w.id, false)))

/-- Model of `queue::operator=(queue&&)`: the destination takes over
the source state; the destination's old pop awaiters are resumed with
an empty optional and its old push awaiters with false.  Returns the
new destination and the two resumption lists. -/
def Queue.moveAssign {T} (dst src : Queue T) :
    Queue T × List (Nat × Option T) × List (Nat × Bool) :=
  ({ m_queue := src.m_queue, m_max_size := src.m_max_size,
     m_pop_list := src.m_pop_list, m_push_list := src.m_push_list },
   dst.m_pop_list.map (fun p => (p.id, (none : Option T))),
   dst.m_push_list.map (fun w => (w.id, false)))

/-- Model of `queue::size`: buffered items plus in-flight suspended
pushes. -/
def Queue.size {T} (q : Queue T) : Nat := q.m_queue.length + q.m_push_list.length

/-- Invariants asserted by the queue source: the buffer never exceeds
the capacity, a suspended popper implies an empty buffer, and a
suspended pusher implies a full buffer. -/
def Queue.wf {T} (q : Queue T) : Bool :=
  decide (q.m_queue.length ≤ q.m_max_size) &&
  (q.m_pop_list.isEmpty || q.m_queue.isEmpty) &&
  (q.m_push_list.isEmpty || q.m_queue.length == q.m_max_size)

/-- Every suspended push awaiter still carries its initial true
result, i.e. none has been cancelled. -/
def Queue.allPushTrue {T} (q : Queue T) : Bool :=
  q.m_push_list.all (fun w => w.m_result)

/-- Awaited pops of the handles `ids`, performed in order. -/
def Queue.suspendPops {T} (q : Queue T) (ids : List Nat) : Queue T :=
  ids.foldl (fun q i => (q.popAwait i).1) q

/-- Awaited pushes of id-value pairs, performed in order, collecting
the popper deliveries in resumption order. -/
def Queue.pushAll {T} (q : Queue T) : List (Nat × T) → Queue T × List (Nat × T)
  | [] => (q, [])
  | iv :: rest =>
    let r := q.pushAwait iv.1 iv.2
    let d := Queue.pushAll r.1 rest
    (d.1, (match r.2 with
            | .completed _ (some p) => [p]
            | _ => []) ++ d.2)

/-! ## fiber bridge (include/asyncpp/fiber.h, detail::fiber_await)

`fiber_await` consumes a stackless awaitable inside a stackful fiber.
If `await_ready()` is true it calls `await_resume()` inline, with no
context switch.  Otherwise it installs into the fiber handle a
trampoline: a type-erased function pointer `suspend_handler` plus the
opaque awaiter address `suspend_handler_ptr`, and swaps context out
once.  The resume callback running on the caller stack then invokes
the trampoline, which calls `await_suspend` with a coroutine handle
wrapping this fiber and returns a bool: for a void-returning
`await_suspend` it returns true (fiber stays suspended); for a
bool-returning one it returns that bool, and the caller loop swaps
straight back into the fiber when it is false; for a handle-returning
one it resumes the returned handle and returns true.  When the fiber
is eventually resumed, `fiber_await` returns `await_resume()`. -/

/-- The shape of `await_suspend` as dispatched on `AwaitResult` inside
the trampoline: returning void, bool, or a coroutine handle
(handles modelled as naturals). -/
inductive SuspendKind (H : Type) where
  | void
  | bool (b : Bool)
  | handle (h : H)
deriving DecidableEq

/-- A stackless awaitable as consumed by `fiber_await`: readiness, the
behaviour of its `await_suspend`, and its `await_resume` value. -/
structure FiberAwaiter (A H : Type) where
  ready : Bool
  suspendAction : SuspendKind H
  resumeVal : A

/-- The trampoline body installed as `suspend_handler`: calls
`await_suspend(handle-to-this-fiber)` and yields whether the fiber
stays suspended (the break in the caller resume loop) together with
an externally resumed handle, if any. -/
def interpSuspend {H} : SuspendKind H → Bool × Option H
  | .void => (true, none)
  | .bool b => (b, none)
  | .handle h => (true, some h)

/-- Observable trace of one `fiber_await` call. -/
structure FiberBridgeTrace (A H : Type) where
  contextSwitchesOut : Nat
  trampolineInstalled : Bool
  trampolineRunOnCallerStack : Bool
  awaitSuspendGotFiberHandle : Bool
  fiberStaysSuspended : Bool
  resumedHandle : Option H
  result : A

/-- Model of `detail::fiber_await`. -/
def fiber_await {A H} (aw : FiberAwaiter A H) : FiberBridgeTrace A H :=
  if aw.ready then
    { contextSwitchesOut := 0, trampolineInstalled := false,
      trampolineRunOnCallerStack := false, awaitSuspendGotFiberHandle := false,
      fiberStaysSuspended := false, resumedHandle := none, result := aw.resumeVal }
  else
    let h := interpSuspend aw.suspendAction
    { contextSwitchesOut := 1, trampolineInstalled := true,
      trampolineRunOnCallerStack := true, awaitSuspendGotFiberHandle := true,
      fiberStaysSuspended := h.1, resumedHandle := h.2, result := aw.resumeVal }

/-! ## generator (include/asyncpp/generator.h)

A synchronous generator frame suspends initially, stores the address
of each `co_yield`-ed value in `m_value` and suspends at every yield
and finally.  `begin()` resumes the frame once; each iterator
increment resumes it once more; the iterator equals `end()` exactly
when the frame is done.  The body is modelled by the list of values
it has still to yield. -/

structure GenFrame (T : Type) where
  pendingYields : List T
  m_value : Option T
  done : Bool

/-- Model of `coroutine_handle::resume` on a generator frame: run the
body to its next suspension point, either storing the next yielded
value in `m_value` or completing the frame. -/
def GenFrame.resume {T} (f : GenFrame T) : GenFrame T :=
  match f.pendingYields with
  | [] => { f with done := true }
  | v :: rest => { pendingYields := rest, m_value := some v, done := false }

/-- Termination measure for driving a generator to completion. -/
def GenFrame.measure {T} (f : GenFrame T) : Nat :=
  f.pendingYields.length + (if f.done then 0 else 1)

/-- The loop body of range-based iteration after `begin()`: while the
iterator differs from `end()` (frame not done), read the current
value and increment (one resume).  Returns the values observed in
order and the number of resume calls made by the increments. -/
def GenFrame.driveAux {T} (f : GenFrame T) : List T × Nat :=
  if h : f.done then ([], 0)
  else
    match f.m_value with
    | none => ([], 0)
    | some v =>
      let d := GenFrame.driveAux f.resume
      (v :: d.1, d.2 + 1)
termination_by f.measure
decreasing_by
  have hd : f.done = false := by simpa using h
  rcases hp : f.pendingYields with _ | ⟨w, rest⟩ <;>
    simp [GenFrame.resume, GenFrame.measure, hp, hd]

/-- Model of a full range-for iteration of a generator: `begin()`
resumes the frame exactly once, then the loop of `driveAux` runs.
Returns the values produced in order and the total number of resume
calls. -/
def GenFrame.drive {T} (f : GenFrame T) : List T × Nat :=
  let d := GenFrame.driveAux f.resume
  (d.1, d.2 + 1)

/-- The generator frame of a body that yields `0, 1, ..., N-1`: lazily
started (initial suspension engaged), nothing yielded yet. -/
def sampleGenerator (N : Nat) : GenFrame Nat :=
  { pendingYields := List.range N, m_value := none, done := false }

end Asyncpp

/-! # Theorems -/

open Asyncpp

/-- C1: awaiting a valid `task<T>` exactly once yields exactly the value
the body returned, and if the body exited via an exception the await
rethrows exactly that one stored exception to the awaiter at result
extraction; the continuation is resumed exactly once either way. -/
theorem task_await_yields_body_outcome (T E : Type) (body : Except E T) :
    (awaitTask T E body).extracted = some body ∧
    (awaitTask T E body).continuationResumedCount = 1 := by
  constructor
  · cases body <;> rfl
  · rfl

/-- C3 counterexample: linking waiter 1 and then waiter 2 onto an unset
`multi_consumer_event` and calling `set()` resumes them as `[2, 1]`,
the reverse of the linking order, not `[1, 2]` as the claim states. -/
theorem event_set_not_fifo_counterexample :
    (EventState.set (EventState.suspendAll .unset [1, 2])).2 = [2, 1] ∧
    (EventState.set (EventState.suspendAll .unset [1, 2])).2 ≠ [1, 2] := by
  constructor
  · rfl
  · decide

theorem EventState.suspendAll_waiting (l : List Nat) (hs : List Nat) :
    EventState.suspendAll (.waiting l) hs = .waiting (hs.reverse ++ l) := by
  induction hs generalizing l with
  | nil => simp [EventState.suspendAll]
  | cons h t ih =>
      simp only [EventState.suspendAll, List.foldl_cons] at *
      rw [show (EventState.await_suspend (.waiting l) h).1 = .waiting (h :: l) from rfl]
      rw [ih]
      simp

/-- C3 amended: `set()` on a `multi_consumer_event` with `n` suspended
waiters resumes all `n` of them, but in the reverse of the order in
which they were linked onto the wait list (most recently linked
first); the LIFO built list is not reversed before firing. -/
theorem event_set_resumes_all_reverse_order (hs : List Nat) :
    (EventState.set (EventState.suspendAll .unset hs)).2 = hs.reverse ∧
    (EventState.set (EventState.suspendAll .unset hs)).2.length = hs.length := by
  have hmain : (EventState.set (EventState.suspendAll .unset hs)).2 = hs.reverse := by
    cases hs with
    | nil => rfl
    | cons h t =>
        have h1 : EventState.suspendAll .unset (h :: t) =
            EventState.suspendAll (.waiting [h]) t := rfl
        rw [h1, EventState.suspendAll_waiting]
        simp [EventState.set]
  exact ⟨hmain, by rw [hmain]; simp⟩

/-- C4: evaluation of the latch code at the failing input.  A latch
constructed with count 1 and one waiter suspended on its event, after
a single `decrement(1)` (decrements summing exactly to the initial
count), has counted down to zero yet `is_ready()` is still false and
no waiter was resumed: `fetch_sub` returned the old count 1, not 0,
so `m_event.set()` was never called. -/
theorem latch_decrement_to_zero_not_ready :
    ((Latch.decrement
        { Latch.init 1 with
          m_event := ((Latch.init 1).m_event.await_suspend 7).1 } 1).1.m_count = 0) ∧
    ((Latch.decrement
        { Latch.init 1 with
          m_event := ((Latch.init 1).m_event.await_suspend 7).1 } 1).1.is_ready = false) ∧
    ((Latch.decrement
        { Latch.init 1 with
          m_event := ((Latch.init 1).m_event.await_suspend 7).1 } 1).2 = []) := by
  refine ⟨rfl, rfl, rfl⟩

theorem Mutex.unlock_pending (m : Mutex) (hwf : m.wf = true) (hne : m.pending ≠ []) :
    m.unlock.2 = m.pending.head? ∧ m.unlock.1.pending = m.pending.tail ∧
    m.unlock.1.wf = true := by
  obtain ⟨st, aw⟩ := m
  cases aw with
  | cons w rest =>
      cases st <;> simp [Mutex.unlock, Mutex.pending, Mutex.wf] at *
      · exact hwf
  | nil =>
      cases st with
      | unlocked => simp [Mutex.pending] at hne
      | lockedNoWaiters => simp [Mutex.pending] at hne
      | lockedWaiters l =>
          have hl : l ≠ [] := by
            simpa [Mutex.wf, List.isEmpty_iff] using hwf
          have hrev : l.reverse ≠ [] := by simpa using hl
          cases hr : l.reverse with
          | nil => exact absurd hr hrev
          | cons w rest =>
              simp [Mutex.unlock, Mutex.pending, Mutex.wf, hr]

theorem Mutex.unlock_none_of_no_pending (m : Mutex) (hwf : m.wf = true)
    (hp : m.pending = []) : m.unlock.2 = none := by
  obtain ⟨st, aw⟩ := m
  cases aw with
  | cons w rest => simp [Mutex.pending] at hp
  | nil =>
      cases st with
      | unlocked => rfl
      | lockedNoWaiters => rfl
      | lockedWaiters l =>
          have hl : l ≠ [] := by
            simpa [Mutex.wf, List.isEmpty_iff] using hwf
          simp [Mutex.pending] at hp
          exact absurd hp hl

theorem Mutex.suspendAll_lockedWaiters (l aw : List Nat) (hs : List Nat) :
    Mutex.suspendAll ⟨.lockedWaiters l, aw⟩ hs = ⟨.lockedWaiters (hs.reverse ++ l), aw⟩ := by
  induction hs generalizing l with
  | nil => simp [Mutex.suspendAll]
  | cons h t ih =>
      simp only [Mutex.suspendAll, List.foldl_cons] at *
      rw [show (Mutex.lock_await_suspend ⟨.lockedWaiters l, aw⟩ h).1 =
            ⟨.lockedWaiters (h :: l), aw⟩ from rfl]
      rw [ih]
      simp

theorem Mutex.suspendAll_from_locked (hs : List Nat) :
    (Mutex.suspendAll ⟨.lockedNoWaiters, []⟩ hs).pending = hs ∧
    (Mutex.suspendAll ⟨.lockedNoWaiters, []⟩ hs).wf = true := by
  cases hs with
  | nil => exact ⟨rfl, rfl⟩
  | cons h t =>
      have h1 : Mutex.suspendAll ⟨.lockedNoWaiters, []⟩ (h :: t) =
          Mutex.suspendAll ⟨.lockedWaiters [h], []⟩ t := rfl
      rw [h1, Mutex.suspendAll_lockedWaiters]
      constructor
      · simp [Mutex.pending]
      · simp [Mutex.wf]

theorem Mutex.drain_pending (l : List Nat) :
    ∀ m : Mutex, m.wf = true → m.pending = l → (Mutex.drain l.length m).1 = l := by
  induction l with
  | nil => intro m _ _; rfl
  | cons w rest ih =>
      intro m hwf hp
      obtain ⟨h1, h2, h3⟩ := Mutex.unlock_pending m hwf (by rw [hp]; simp)
      rw [hp] at h1 h2
      simp only [List.head?_cons] at h1
      simp only [List.tail_cons] at h2
      have := ih m.unlock.1 h3 h2
      simp [Mutex.drain, h1, this]

/-- C2: on a mutex with at least one suspended lock waiter, a single
`unlock()` removes and resumes exactly one waiter, namely the
FIFO-first pending one; with distinct waiters the resumed one is no
longer pending afterwards (never resumed twice); and repeatedly
unlocking after a batch of suspensions resumes the waiters in the
FIFO order of their suspension, the CAS-built LIFO list being
reversed inside `unlock`. -/
theorem mutex_unlock_resumes_exactly_one_fifo :
    (∀ m : Mutex, m.wf = true → m.pending ≠ [] →
        m.unlock.2 = m.pending.head? ∧ m.unlock.1.pending = m.pending.tail) ∧
    (∀ (m : Mutex) (w : Nat), m.wf = true → m.pending.Nodup → m.unlock.2 = some w →
        w ∉ m.unlock.1.pending) ∧
    (∀ hs : List Nat,
        (Mutex.drain hs.length (Mutex.suspendAll ⟨.lockedNoWaiters, []⟩ hs)).1 = hs) := by
  refine ⟨?_, ?_, ?_⟩
  · intro m hwf hne
    exact ⟨(Mutex.unlock_pending m hwf hne).1, (Mutex.unlock_pending m hwf hne).2.1⟩
  · intro m w hwf hnodup hres
    by_cases hp : m.pending = []
    · rw [Mutex.unlock_none_of_no_pending m hwf hp] at hres
      exact absurd hres (by simp)
    · obtain ⟨h1, h2, _⟩ := Mutex.unlock_pending m hwf hp
      rw [hres] at h1
      cases hl : m.pending with
      | nil => exact absurd hl hp
      | cons x xs =>
          rw [hl] at h1 h2 hnodup
          simp only [List.head?_cons, Option.some.injEq] at h1
          subst h1
          rw [h2, List.tail_cons]
          exact (List.nodup_cons.mp hnodup).1
  · intro hs
    exact Mutex.drain_pending hs _ (Mutex.suspendAll_from_locked hs).2
      (Mutex.suspendAll_from_locked hs).1

/-- Witness for the mutex theorem at a concrete mutex whose CAS list
holds waiters 1 (older) and 2 (newer): unlock resumes waiter 1. -/
theorem mutex_unlock_witness :
    (Mutex.unlock ⟨.lockedWaiters [2, 1], []⟩).2 = some 1 :=
  ((mutex_unlock_resumes_exactly_one_fifo.1 ⟨.lockedWaiters [2, 1], []⟩ (by decide)
      (by decide)).1).trans (by decide)

/-- C5: on a fresh open channel, an awaited `write(x)` suspends (no
reader is present), and a subsequent awaited `read()` completes
without suspending: the reader yields exactly `x`, the suspended
writer is unhooked and resumed inline with its await yielding true,
and afterwards no waiter is left, so the value is delivered to
exactly one reader exactly once. -/
theorem channel_write_read_rendezvous (T : Type) (x : T) :
    ((Channel.writeAwait ({} : Channel T) 1 x).2 = .suspended) ∧
    ((Channel.readAwait (Channel.writeAwait ({} : Channel T) 1 x).1 2).2 =
        .immediate (some x) (some (1, true))) ∧
    ((Channel.readAwait (Channel.writeAwait ({} : Channel T) 1 x).1 2).1.m_reader_list = []) ∧
    ((Channel.readAwait (Channel.writeAwait ({} : Channel T) 1 x).1 2).1.m_writer_list = []) :=
  ⟨rfl, rfl, rfl, rfl⟩

/-- C6: `close()` is permanent: no channel operation ever clears
`m_closed`; the first close resumes every waiting reader with an
empty optional and every waiting writer with false; and on a closed
channel every awaited read completes immediately with an empty
optional and every awaited write completes immediately with false,
neither suspending nor touching the channel. -/
theorem channel_close_permanent (T : Type) :
    (∀ (c : Channel T) (op : ChanOp T), c.m_closed = true → (c.step op).m_closed = true) ∧
    (∀ c : Channel T, c.m_closed = false →
        c.close.1.m_closed = true ∧
        c.close.2.1 = c.m_reader_list.map (fun r => (r.id, (none : Option T))) ∧
        c.close.2.2 = c.m_writer_list.map (fun w => (w.id, false))) ∧
    (∀ (c : Channel T) (id : Nat), c.m_closed = true →
        c.readAwait id = (c, .immediate none none)) ∧
    (∀ (c : Channel T) (id : Nat) (v : T), c.m_closed = true →
        c.writeAwait id v = (c, .immediate false none)) := by
  refine ⟨?_, ?_, ?_, ?_⟩
  · intro c op hc
    cases op with
    | close => simp [Channel.step, Channel.close, hc]
    | tryRead => simp [Channel.step, Channel.try_read, hc]
    | tryWrite v => simp [Channel.step, Channel.try_write, hc]
    | readAwait id => simp [Channel.step, Channel.readAwait, hc]
    | writeAwait id v => simp [Channel.step, Channel.writeAwait, hc]
  · intro c hc
    refine ⟨?_, ?_, ?_⟩ <;> simp [Channel.close, hc]
  · intro c id hc
    simp [Channel.readAwait, hc]
  · intro c id v hc
    simp [Channel.writeAwait, hc]

/-- Witness for the channel close theorem: on a concrete closed
channel an awaited read completes immediately with the empty
optional. -/
theorem channel_close_witness :
    Channel.readAwait ({ m_closed := true } : Channel Nat) 5 =
      ({ m_closed := true }, .immediate none none) :=
  (channel_close_permanent Nat).2.2.1 { m_closed := true } 5 rfl

theorem Queue.suspendPops_shape {T : Type} (ids : List Nat) :
    ∀ (K : Nat) (pl : List (QPopW T)),
      Queue.suspendPops ⟨[], K, pl, []⟩ ids =
        ⟨[], K, pl ++ ids.map (fun i => { id := i }), []⟩ := by
  induction ids with
  | nil => intro K pl; simp [Queue.suspendPops]
  | cons i rest ih =>
      intro K pl
      have h1 : ((⟨[], K, pl, []⟩ : Queue T).popAwait i).1 =
          ⟨[], K, pl ++ [{ id := i }], []⟩ := rfl
      simp only [Queue.suspendPops, List.foldl_cons, h1]
      have h2 := ih K (pl ++ [{ id := i }])
      simp only [Queue.suspendPops] at h2
      rw [h2]
      simp

theorem Queue.pushAll_delivers {T : Type} (ids : List Nat) :
    ∀ (xs : List (Nat × T)) (K : Nat), ids.length = xs.length →
      (Queue.pushAll ⟨[], K, ids.map (fun i => { id := i }), []⟩ xs).2 =
        ids.zip (xs.map Prod.snd) := by
  induction ids with
  | nil =>
      intro xs K hlen
      cases xs with
      | nil => rfl
      | cons x xr => simp at hlen
  | cons i irest ih =>
      intro xs K hlen
      cases xs with
      | nil => simp at hlen
      | cons x xrest =>
          have h1 : ((⟨[], K, (i :: irest).map (fun i => { id := i }), []⟩ : Queue T).pushAwait
              x.1 x.2) =
              (⟨[], K, irest.map (fun i => { id := i }), []⟩, .completed true (some (i, x.2))) :=
            rfl
          simp only [Queue.pushAll, h1]
          have h2 := ih xrest K (by simpa using hlen)
          rw [h2]
          simp

/-- C7: an awaited push suspends exactly when no popper is waiting and
the buffer holds the full capacity of items (with a waiting popper it
hands its value over directly, with room it buffers without
suspending); an awaited pop suspends exactly when the buffer is
empty; and poppers suspended on an empty queue are resumed by the
following successful pushes, each with exactly that push's value, in
FIFO order of their suspension. -/
theorem queue_push_pop_suspension_fifo (T : Type) :
    (∀ (q : Queue T) (id : Nat) (v : T), q.wf = true →
        ((q.pushAwait id v).2 = .suspended ↔
          q.m_pop_list = [] ∧ q.m_queue.length = q.m_max_size)) ∧
    (∀ (q : Queue T) (id : Nat),
        ((q.popAwait id).2 = .suspended ↔ q.m_queue = [])) ∧
    (∀ (K : Nat) (ids : List Nat) (xs : List (Nat × T)), ids.length = xs.length →
        (((Queue.init T K).suspendPops ids).pushAll xs).2 = ids.zip (xs.map Prod.snd)) := by
  refine ⟨?_, ?_, ?_⟩
  · intro q id v hwf
    obtain ⟨buf, K, pl, shl⟩ := q
    cases pl with
    | cons p rest =>
        simp [Queue.pushAwait]
    | nil =>
        simp only [Queue.wf, Bool.and_eq_true, decide_eq_true_eq] at hwf
        by_cases hlt : buf.length < K
        · simp [Queue.pushAwait, hlt]
          omega
        · simp [Queue.pushAwait, hlt]
          omega
  · intro q id
    obtain ⟨buf, K, pl, shl⟩ := q
    cases buf with
    | nil => simp [Queue.popAwait]
    | cons v qrest =>
        cases shl <;> simp [Queue.popAwait]
  · intro K ids xs hlen
    have h1 : (Queue.init T K).suspendPops ids =
        ⟨[], K, ids.map (fun i => { id := i }), []⟩ := by
      have := Queue.suspendPops_shape (T := T) ids K []
      simpa [Queue.init] using this
    rw [h1]
    exact Queue.pushAll_delivers ids xs K hlen

/-- Witness for the queue suspension theorem: a full queue of capacity
one with no waiting poppers suspends an awaited push. -/
theorem queue_full_push_suspends_witness :
    ((⟨[4], 1, [], []⟩ : Queue Nat).pushAwait 1 9).2 = PushOutcome.suspended :=
  ((queue_push_pop_suspension_fifo Nat).1 ⟨[4], 1, [], []⟩ 1 9 (by decide)).mpr ⟨rfl, rfl⟩

/-- C10: an awaited push can fail, and it fails exactly when it was
cancelled: `clear()` resumes every suspended push awaiter with false
and leaves none behind, move assignment resumes the old push awaiters
of the destination with false, while every push that completes
without suspending yields true, a push never flips a stored result to
false, and a suspended push resumed by a pop yields true whenever no
cancellation has touched it. -/
theorem queue_push_fails_iff_cancelled (T : Type) :
    (∀ q : Queue T,
        (Queue.clear q).2 = q.m_push_list.map (fun w => (w.id, false)) ∧
        (Queue.clear q).1.m_push_list = []) ∧
    (∀ dst src : Queue T,
        (Queue.moveAssign dst src).2.2 = dst.m_push_list.map (fun w => (w.id, false))) ∧
    (∀ (q : Queue T) (id : Nat) (v : T) (r : Bool) (d : Option (Nat × T)),
        (q.pushAwait id v).2 = .completed r d → r = true) ∧
    (∀ (q : Queue T) (id : Nat) (v : T),
        (q.pushAwait id v).1.allPushTrue = q.allPushTrue) ∧
    (∀ (q : Queue T) (id : Nat), q.allPushTrue = true →
        (q.popAwait id).1.allPushTrue = true ∧
        (∀ (v : T) (pid : Nat) (pres : Bool),
            (q.popAwait id).2 = .completed v (some (pid, pres)) → pres = true)) := by
  refine ⟨?_, ?_, ?_, ?_, ?_⟩
  · intro q; exact ⟨rfl, rfl⟩
  · intro dst src; rfl
  · intro q id v r d h
    obtain ⟨buf, K, pl, shl⟩ := q
    cases pl with
    | cons p rest =>
        simp [Queue.pushAwait] at h
        exact h.1
    | nil =>
        by_cases hlt : buf.length < K
        · simp [Queue.pushAwait, hlt] at h
          exact h.1
        · simp [Queue.pushAwait, hlt] at h
  · intro q id v
    obtain ⟨buf, K, pl, shl⟩ := q
    cases pl with
    | cons p rest => simp [Queue.pushAwait, Queue.allPushTrue]
    | nil =>
        by_cases hlt : buf.length < K
        · simp [Queue.pushAwait, hlt, Queue.allPushTrue]
        · simp [Queue.pushAwait, hlt, Queue.allPushTrue]
  · intro q id hall
    obtain ⟨buf, K, pl, shl⟩ := q
    cases buf with
    | nil =>
        refine ⟨by simpa [Queue.popAwait, Queue.allPushTrue] using hall, ?_⟩
        intro v pid pres h
        exact absurd h (by simp [Queue.popAwait])
    | cons x qrest =>
        cases shl with
        | nil =>
            refine ⟨by simp [Queue.popAwait, Queue.allPushTrue], ?_⟩
            intro v pid pres h
            simp [Queue.popAwait] at h
        | cons pw pwrest =>
            simp only [Queue.allPushTrue, List.all_cons, Bool.and_eq_true] at hall
            refine ⟨by simp [Queue.popAwait, Queue.allPushTrue, hall.2], ?_⟩
            intro v pid pres h
            simp [Queue.popAwait] at h
            rw [← h.2.2]
            exact hall.1

/-- Witness for the queue cancellation theorem: popping from a
concrete full queue with one suspended uncancelled push keeps every
remaining push result true. -/
theorem queue_pop_resumes_push_witness :
    ((⟨[7], 1, [], [⟨9, 8, true⟩]⟩ : Queue Nat).popAwait 3).1.allPushTrue = true :=
  ((queue_push_fails_iff_cancelled Nat).2.2.2.2 ⟨[7], 1, [], [⟨9, 8, true⟩]⟩ 3 (by decide)).1

/-- C8: consuming an awaitable through the fiber bridge: when
`await_ready()` is true, `await_resume()` runs inline with no context
switch and no trampoline; otherwise the type-erased trampoline is
installed and run from the caller stack after the switch back,
`await_suspend` receives the handle to the fiber, and its return type
decides the continuation: void leaves the fiber suspended, bool
resumes the fiber exactly when it is false, a returned handle is
itself resumed; the value of `await_resume()` is returned inside the
fiber in every case. -/
theorem fiber_await_bridge (A H : Type) (aw : FiberAwaiter A H) :
    (aw.ready = true →
        fiber_await aw =
          { contextSwitchesOut := 0, trampolineInstalled := false,
            trampolineRunOnCallerStack := false, awaitSuspendGotFiberHandle := false,
            fiberStaysSuspended := false, resumedHandle := none,
            result := aw.resumeVal }) ∧
    (aw.ready = false →
        (fiber_await aw).contextSwitchesOut = 1 ∧
        (fiber_await aw).trampolineInstalled = true ∧
        (fiber_await aw).trampolineRunOnCallerStack = true ∧
        (fiber_await aw).awaitSuspendGotFiberHandle = true ∧
        (fiber_await aw).result = aw.resumeVal ∧
        (aw.suspendAction = .void →
            (fiber_await aw).fiberStaysSuspended = true ∧
            (fiber_await aw).resumedHandle = none) ∧
        (∀ b, aw.suspendAction = .bool b →
            ((fiber_await aw).fiberStaysSuspended = false ↔ b = false) ∧
            (fiber_await aw).resumedHandle = none) ∧
        (∀ h, aw.suspendAction = .handle h →
            (fiber_await aw).resumedHandle = some h ∧
            (fiber_await aw).fiberStaysSuspended = true)) := by
  obtain ⟨rdy, act, val⟩ := aw
  constructor
  · intro hr
    subst hr
    rfl
  · intro hr
    subst hr
    refine ⟨rfl, rfl, rfl, rfl, rfl, ?_, ?_, ?_⟩
    · intro ha
      subst ha
      exact ⟨rfl, rfl⟩
    · intro b ha
      subst ha
      cases b <;> simp [fiber_await, interpSuspend]
    · intro h ha
      subst ha
      exact ⟨rfl, rfl⟩

/-- Witness for the fiber bridge theorem: an awaitable that is not
ready and whose `await_suspend` returns false makes the caller loop
swap straight back into the fiber. -/
theorem fiber_await_witness :
    (fiber_await ({ ready := false,
                    suspendAction := SuspendKind.bool false,
                    resumeVal := 5 } : FiberAwaiter Nat Nat)).fiberStaysSuspended = false :=
  (((fiber_await_bridge Nat Nat
        { ready := false, suspendAction := SuspendKind.bool false, resumeVal := 5 }).2
      rfl).2.2.2.2.2.2.1 false rfl).1.mpr rfl

theorem GenFrame.driveAux_yields {T : Type} (l : List T) :
    ∀ v : T, GenFrame.driveAux ⟨l, some v, false⟩ = (v :: l, l.length + 1) := by
  induction l with
  | nil =>
      intro v
      rw [GenFrame.driveAux]
      simp [GenFrame.resume, GenFrame.driveAux]
  | cons w rest ih =>
      intro v
      rw [GenFrame.driveAux]
      simp only [GenFrame.resume]
      simp [ih w]

theorem GenFrame.drive_all {T : Type} (l : List T) :
    GenFrame.drive ⟨l, none, false⟩ = (l, l.length + 1) := by
  cases l with
  | nil =>
      rw [GenFrame.drive]
      simp [GenFrame.resume, GenFrame.driveAux]
  | cons v rest =>
      rw [GenFrame.drive]
      rw [show (⟨v :: rest, none, false⟩ : GenFrame T).resume =
            ⟨rest, some v, false⟩ from rfl]
      simp [GenFrame.driveAux_yields rest v]

theorem range_sum_twice (N : Nat) : 2 * (List.range N).sum = N * (N - 1) := by
  induction N with
  | zero => rfl
  | succ n ih =>
      rw [List.range_succ, List.sum_append]
      simp only [List.sum_cons, List.sum_nil, Nat.add_zero]
      cases n with
      | zero => simp
      | succ m =>
          simp only [Nat.succ_sub_one] at *
          nlinarith [ih]

/-- C9: iterating a synchronous generator whose body yields the values
`0 .. N-1` produces exactly that sequence in order, resuming the
frame exactly `N + 1` times: once in `begin()` and once per iterator
increment, iteration ending exactly when the frame completes; the sum
of the produced values is `N * (N - 1) / 2`. -/
theorem generator_range_iteration (N : Nat) :
    (sampleGenerator N).drive = (List.range N, N + 1) ∧
    (sampleGenerator N).drive.1.sum = N * (N - 1) / 2 := by
  have h1 : (sampleGenerator N).drive = (List.range N, N + 1) := by
    have := GenFrame.drive_all (List.range N)
    simpa [sampleGenerator] using this
  refine ⟨h1, ?_⟩
  rw [h1]
  show (List.range N).sum = N * (N - 1) / 2
  have h2 := range_sum_twice N
  omega
